import Mathlib

/-!
Verification of the ragam resolution-and-proxy core against its
natural-language specification.

The definitions below are a shallow embedding of the two source files:

* `server.cjs` — the backend: the JioSaavn matcher (`normalize`,
  `startsEither`, `_findMatchingTrack`) and the `/proxy` relay with its
  HLS-manifest rewriting.
* `src/services/youtubeService.js` — the frontend resolver:
  `getJioSaavnAudioUrl`, `searchJioSaavn`, `getYouTubeAudioUrl`,
  `searchYouTube` and the quality selection inside `getStreamUrl`.

JavaScript strings are modelled as Lean `String`/`List Char`; values that may
be `undefined`/`null` are modelled as `Option`; functions that may throw are
modelled as `Except String`.  External network calls are passed in as explicit
oracles (total functions), so every definition is executable.
-/

namespace Ragam

/-! ## JavaScript character classes (the `\s` and `\w` of the regexes, and the
whitespace set used by `String.prototype.trim`) -/

/-- The JavaScript whitespace set, restricted to the ASCII whitespace
characters that `\s` and `trim` agree on (space, tab, LF, VT, FF, CR).
The additional Unicode space code points of JS are not relevant to any
claim and are omitted from the model. -/
def wsB (c : Char) : Bool :=
  c = ' ' || c = '\t' || c = '\n' || c = '\x0b' || c = '\x0c' || c = '\r'

/-- The JavaScript `\w` class: `[A-Za-z0-9_]`. -/
def wordB (c : Char) : Bool :=
  (65 ≤ c.toNat && c.toNat ≤ 90) || (97 ≤ c.toNat && c.toNat ≤ 122) ||
    (48 ≤ c.toNat && c.toNat ≤ 57) || c.toNat = 95

/-- ASCII lower-casing of a single character, as `toLowerCase` acts on the
characters occurring in this code base. -/
def lowerChar (c : Char) : Char :=
  if 65 ≤ c.toNat && c.toNat ≤ 90 then Char.ofNat (c.toNat + 32) else c

/-- `String.prototype.trim` on a character list: drop whitespace from both
ends. -/
def trimChars (cs : List Char) : List Char :=
  ((cs.dropWhile wsB).reverse.dropWhile wsB).reverse

/-- `trim` lifted to `String`. -/
def trimStr (s : String) : String :=
  ⟨trimChars s.data⟩

/-! ## server.cjs `_findMatchingTrack` helpers (lines 118-136) -/

/-- `server.cjs` line 119:
`(text || '').toString().trim().toLowerCase().replace(/[^\w\s]/g, '')`.
The input is always a string here, so `(text || '')` is the identity on the
modelled values. -/
def normalize (s : String) : String :=
  ⟨((trimChars s.data).map lowerChar).filter (fun c => wordB c || wsB c)⟩

/-- JS `a.startsWith(b)` on strings. -/
def startsWithJs (a b : String) : Bool :=
  b.data.isPrefixOf a.data

/-- `server.cjs` line 120: `(a, b) => a.startsWith(b) || b.startsWith(a)`. -/
def startsEither (a b : String) : Bool :=
  startsWithJs a b || startsWithJs b a

/-- A processed JioSaavn search result as consumed by `_findMatchingTrack`:
only the track name and the artist names of `artists.primary` and
`artists.all` are inspected (`.map(a => a.name)` is applied by the source
before comparing, so the model stores the name lists directly). -/
structure SCandidate where
  name : String
  primary : List String
  allA : List String
deriving DecidableEq, Repr

/-- `server.cjs` line 128: some artist of `primary ++ all` overlaps the
queried artist after normalization. -/
def artistMatchesB (artist : String) (t : SCandidate) : Bool :=
  (t.primary ++ t.allA).any (fun a => startsEither (normalize artist) (normalize a))

/-- `server.cjs` line 129: the candidate title overlaps the queried title
after normalization. -/
def titleMatchesB (title : String) (t : SCandidate) : Bool :=
  startsEither (normalize title) (normalize t.name)

/-- `server.cjs` line 131, the condition of the first loop:
`titleMatches && (artistMatches || !artist)` (an empty artist string is
falsy in JS). -/
def tier1B (title artist : String) (t : SCandidate) : Bool :=
  titleMatchesB title t && (artistMatchesB artist t || artist == "")

/-- `server.cjs` lines 122-135, `_findMatchingTrack`: first candidate whose
title matches and whose artist matches (or no artist was queried); otherwise
the first candidate with a title match; otherwise the first candidate;
`none` when the list is empty. -/
def findMatchingTrack (rs : List SCandidate) (title artist : String) :
    Option SCandidate :=
  match rs.find? (tier1B title artist) with
  | some t => some t
  | none =>
    match rs.find? (titleMatchesB title) with
    | some t => some t
    | none => rs.head?

/-! ## Supporting lemmas about the character pipeline -/

theorem toNat_ofNat_of_valid {n : Nat} (h : n.isValidChar) :
    (Char.ofNat n).toNat = n := by
  simp [Char.ofNat, h, Char.ofNatAux, Char.toNat, UInt32.toNat, BitVec.toNat_ofNatLt]

theorem map_eq_self_of {α : Type} {l : List α} {f : α → α}
    (h : ∀ x ∈ l, f x = x) : l.map f = l := by
  induction l with
  | nil => rfl
  | cons a l ih =>
    simp only [List.map_cons, h a (List.mem_cons_self a l)]
    rw [ih (fun x hx => h x (List.mem_cons_of_mem a hx))]

theorem mem_of_mem_trimChars {c : Char} {cs : List Char}
    (h : c ∈ trimChars cs) : c ∈ cs := by
  unfold trimChars at h
  rw [List.mem_reverse] at h
  have h1 := (List.dropWhile_sublist _).subset h
  rw [List.mem_reverse] at h1
  exact (List.dropWhile_sublist _).subset h1

theorem lowerChar_idem (c : Char) : lowerChar (lowerChar c) = lowerChar c := by
  unfold lowerChar
  by_cases h : (65 ≤ c.toNat && c.toNat ≤ 90) = true
  · rw [if_pos h]
    have hval : (c.toNat + 32).isValidChar := by
      simp only [Bool.and_eq_true, decide_eq_true_eq] at h
      exact Or.inl (by omega)
    have ht : (Char.ofNat (c.toNat + 32)).toNat = c.toNat + 32 :=
      toNat_ofNat_of_valid hval
    rw [if_neg]
    simp only [ht, Bool.and_eq_true, decide_eq_true_eq] at h ⊢
    omega
  · rw [if_neg h, if_neg h]

/-- Every character of `normalize s` is fixed by `lowerChar` and belongs to
the kept class `\w ∪ \s`. -/
theorem normalize_chars {s : String} {c : Char} (h : c ∈ (normalize s).data) :
    lowerChar c = c ∧ (wordB c || wsB c) = true := by
  unfold normalize at h
  simp only [List.mem_filter] at h
  obtain ⟨hm, hk⟩ := h
  simp only [List.mem_map] at hm
  obtain ⟨d, _, hd⟩ := hm
  refine ⟨?_, hk⟩
  rw [← hd, lowerChar_idem]

theorem normalize_eq_trim_of_fixed {y : String}
    (h : ∀ c ∈ y.data, lowerChar c = c ∧ (wordB c || wsB c) = true) :
    normalize y = trimStr y := by
  unfold normalize trimStr
  congr 1
  rw [map_eq_self_of (fun c hc => (h c (mem_of_mem_trimChars hc)).1)]
  exact List.filter_eq_self.mpr (fun c hc => (h c (mem_of_mem_trimChars hc)).2)

theorem normalize_normalize_eq_trim (s : String) :
    normalize (normalize s) = trimStr (normalize s) :=
  normalize_eq_trim_of_fixed (fun _ hc => normalize_chars hc)

/-- C9 counterexample: `normalize` is not idempotent.  Stripping the dot of
`". a"` exposes a leading space that only a second `trim` removes. -/
theorem c9_counterexample : normalize (normalize ". a") ≠ normalize ". a" := by
  decide

/-- C9 (amended): `normalize` is not idempotent in general; composing it with
itself instead equals one further `trim` of its output, and idempotence fails
at `". a"`. -/
theorem c9_normalize_double :
    (∀ s : String, normalize (normalize s) = trimStr (normalize s)) ∧
    normalize (normalize ". a") ≠ normalize ". a" :=
  ⟨normalize_normalize_eq_trim, by decide⟩

/-- C8 counterexample: after normalization, `"the weeknd"` and `"weeknd"` are
not in the prefix relation in either direction, so `namesOverlap` is false on
this pair, contrary to the claim. -/
theorem c8_counterexample :
    startsEither (normalize "the weeknd") (normalize "weeknd") = false := by
  decide

/-- C8 (amended): `startsEither` over normalized strings is true exactly when
one normalized string is a prefix of the other; on `("the weeknd", "weeknd")`
it is false (neither is a prefix of the other), and on `("abc", "xyz")` it is
false. -/
theorem c8_namesOverlap_prefix_iff :
    (∀ a b : String, startsEither (normalize a) (normalize b) = true ↔
      ((normalize a).data <+: (normalize b).data ∨
        (normalize b).data <+: (normalize a).data)) ∧
    startsEither (normalize "the weeknd") (normalize "weeknd") = false ∧
    startsEither (normalize "abc") (normalize "xyz") = false := by
  refine ⟨fun a b => ?_, by decide, by decide⟩
  unfold startsEither startsWithJs
  rw [Bool.or_eq_true, List.isPrefixOf_iff_prefix, List.isPrefixOf_iff_prefix]
  exact or_comm

/-! ## C1: the two-tier candidate selection -/

theorem find?_some_decomp {α : Type} {p : α → Bool} {l : List α} {a : α}
    (h : l.find? p = some a) :
    ∃ l1 l2, l = l1 ++ a :: l2 ∧ p a = true ∧ ∀ x ∈ l1, p x = false := by
  induction l with
  | nil => simp [List.find?] at h
  | cons b l ih =>
    by_cases hb : p b = true
    · rw [List.find?_cons_of_pos _ hb, Option.some_inj] at h
      subst h
      exact ⟨[], l, rfl, hb, by simp⟩
    · rw [List.find?_cons_of_neg _ hb] at h
      obtain ⟨l1, l2, rfl, hpa, hall⟩ := ih h
      refine ⟨b :: l1, l2, rfl, hpa, ?_⟩
      intro x hx
      rcases List.mem_cons.mp hx with rfl | hx
      · exact Bool.eq_false_iff.mpr hb
      · exact hall x hx

/-- The spec example for `selectBestCandidate`. -/
def blCandidates : List SCandidate :=
  [⟨"Blinding Lights", ["The Weeknd"], []⟩,
    ⟨"Blinding Lights (Remix)", ["DJ X"], []⟩]

/-- Its first element. -/
def blFirst : SCandidate := ⟨"Blinding Lights", ["The Weeknd"], []⟩

/-- C1: `_findMatchingTrack` follows the two-tier fallback.  It returns
`none` exactly on the empty list; any returned candidate is either the first
one matching title and artist, or (when no candidate does) the first one
matching the title alone, or (when none does) the head of the list; and on
the Blinding Lights example it returns the first candidate. -/
theorem c1_findMatchingTrack_two_tier :
    (∀ rs title artist, findMatchingTrack rs title artist = none ↔ rs = []) ∧
    (∀ rs title artist t, findMatchingTrack rs title artist = some t →
      (∃ l1 l2, rs = l1 ++ t :: l2 ∧ tier1B title artist t = true ∧
        ∀ x ∈ l1, tier1B title artist x = false) ∨
      ((∀ x ∈ rs, tier1B title artist x = false) ∧
        ∃ l1 l2, rs = l1 ++ t :: l2 ∧ titleMatchesB title t = true ∧
          ∀ x ∈ l1, titleMatchesB title x = false) ∨
      ((∀ x ∈ rs, tier1B title artist x = false) ∧
        (∀ x ∈ rs, titleMatchesB title x = false) ∧ rs.head? = some t)) ∧
    findMatchingTrack blCandidates "Blinding Lights" "Weeknd" = some blFirst := by
  refine ⟨fun rs title artist => ?_, fun rs title artist t h => ?_, by decide⟩
  · unfold findMatchingTrack
    constructor
    · intro h
      cases h1 : rs.find? (tier1B title artist) with
      | some u => rw [h1] at h; exact absurd h (by simp)
      | none =>
        rw [h1] at h
        cases h2 : rs.find? (titleMatchesB title) with
        | some u => rw [h2] at h; exact absurd h (by simp)
        | none =>
          rw [h2] at h
          exact List.head?_eq_none_iff.mp h
    · rintro rfl
      rfl
  · unfold findMatchingTrack at h
    cases h1 : rs.find? (tier1B title artist) with
    | some u =>
      rw [h1, Option.some_inj] at h
      subst h
      exact Or.inl (find?_some_decomp h1)
    | none =>
      rw [h1] at h
      have hall1 : ∀ x ∈ rs, tier1B title artist x = false := fun x hx =>
        Bool.eq_false_iff.mpr (List.find?_eq_none.mp h1 x hx)
      cases h2 : rs.find? (titleMatchesB title) with
      | some u =>
        rw [h2, Option.some_inj] at h
        subst h
        exact Or.inr (Or.inl ⟨hall1, find?_some_decomp h2⟩)
      | none =>
        rw [h2] at h
        have hall2 : ∀ x ∈ rs, titleMatchesB title x = false := fun x hx =>
          Bool.eq_false_iff.mpr (List.find?_eq_none.mp h2 x hx)
        exact Or.inr (Or.inr ⟨hall1, hall2, h⟩)

/-- C1 witness: the theorem's second component applied to the Blinding Lights
example. -/
theorem c1_witness :
    findMatchingTrack blCandidates "Blinding Lights" "Weeknd" = some blFirst ∧
    ((∃ l1 l2, blCandidates = l1 ++ blFirst :: l2 ∧
        tier1B "Blinding Lights" "Weeknd" blFirst = true ∧
        ∀ x ∈ l1, tier1B "Blinding Lights" "Weeknd" x = false) ∨
      ((∀ x ∈ blCandidates, tier1B "Blinding Lights" "Weeknd" x = false) ∧
        ∃ l1 l2, blCandidates = l1 ++ blFirst :: l2 ∧
          titleMatchesB "Blinding Lights" blFirst = true ∧
          ∀ x ∈ l1, titleMatchesB "Blinding Lights" x = false) ∨
      ((∀ x ∈ blCandidates, tier1B "Blinding Lights" "Weeknd" x = false) ∧
        (∀ x ∈ blCandidates, titleMatchesB "Blinding Lights" x = false) ∧
        blCandidates.head? = some blFirst)) :=
  ⟨by decide,
    c1_findMatchingTrack_two_tier.2.1 blCandidates "Blinding Lights" "Weeknd"
      blFirst (by decide)⟩

/-! ## C2/C10: quality selection in `getStreamUrl`
(`src/services/youtubeService.js` lines 199-250) -/

/-- Value of a decimal digit character. -/
def decDigitVal (c : Char) : Option Nat :=
  if 48 ≤ c.toNat && c.toNat ≤ 57 then some (c.toNat - 48) else none

/-- Value of a hexadecimal digit character. -/
def hexDigitVal (c : Char) : Option Nat :=
  if 48 ≤ c.toNat && c.toNat ≤ 57 then some (c.toNat - 48)
  else if 65 ≤ c.toNat && c.toNat ≤ 70 then some (c.toNat - 55)
  else if 97 ≤ c.toNat && c.toNat ≤ 102 then some (c.toNat - 87)
  else none

/-- Accumulate the value of the longest digit prefix. -/
def parseDigitsAux (dv : Char → Option Nat) (base : Nat) (acc : Nat) :
    List Char → Nat
  | [] => acc
  | c :: rest =>
    match dv c with
    | some d => parseDigitsAux dv base (acc * base + d) rest
    | none => acc

/-- Parse the longest digit prefix; `none` (NaN) when there is no digit. -/
def parseRadix (dv : Char → Option Nat) (base : Nat) (cs : List Char) :
    Option Nat :=
  match cs with
  | [] => none
  | c :: _ =>
    match dv c with
    | none => none
    | some _ => some (parseDigitsAux dv base 0 cs)

/-- JS `parseInt(s)` with no radix argument: strip leading whitespace, read
an optional sign, use hexadecimal when a `0x`/`0X` prefix follows, otherwise
decimal; `none` models NaN. -/
def parseIntJs (s : String) : Option Int :=
  let cs := s.data.dropWhile wsB
  let signed : Int × List Char :=
    match cs with
    | c :: rest =>
      if c = '-' then (-1, rest) else if c = '+' then (1, rest) else (1, cs)
    | [] => (1, [])
  let body : Option Nat :=
    match signed.2 with
    | '0' :: c :: rest =>
      if c = 'x' || c = 'X' then parseRadix hexDigitVal 16 rest
      else parseRadix decDigitVal 10 signed.2
    | cs2 => parseRadix decDigitVal 10 cs2
  body.map (fun n => signed.1 * n)

/-- One adaptive format as consumed by `getStreamUrl`: the `type`, `bitrate`
and `url` fields of the Invidious response (all possibly absent). -/
structure AudioVariant where
  type : Option String
  bitrate : Option String
  url : Option String
deriving DecidableEq, Repr

/-- `parseInt(a.bitrate || 0)`: an absent or empty (falsy) bitrate becomes
the number `0`, which parses to `0`; otherwise `parseInt` of the string.
`none` models NaN, on which the JS comparator is inconsistent and the sort
order implementation-defined; theorems about the sort therefore assume the
key is not NaN. -/
def bitrateKey (v : AudioVariant) : Option Int :=
  match v.bitrate with
  | none => some 0
  | some s => if s = "" then some 0 else parseIntJs s

/-- The integer sort key (meaningful when `bitrateKey` is not NaN). -/
def bitKeyD (v : AudioVariant) : Int :=
  (bitrateKey v).getD 0

/-- Stable insertion into a descending-sorted list: place `x` before the
first element whose key does not exceed `x`'s. -/
def insDesc (x : AudioVariant) : List AudioVariant → List AudioVariant
  | [] => [x]
  | y :: ys => if bitKeyD y ≤ bitKeyD x then x :: y :: ys else y :: insDesc x ys

/-- The stable descending sort of
`audioStreams.sort((a, b) => parseInt(b.bitrate || 0) - parseInt(a.bitrate || 0))`
(JS `Array.prototype.sort` is stable). -/
def sortByBitrateDesc : List AudioVariant → List AudioVariant
  | [] => []
  | x :: xs => insDesc x (sortByBitrateDesc xs)

/-- `getStreamUrl` line 215: keep the formats whose `type` starts with
`audio` (an absent or empty `type` is falsy). -/
def filterAudio (formats : List AudioVariant) : List AudioVariant :=
  formats.filter (fun f =>
    match f.type with
    | some t => startsWithJs t "audio"
    | none => false)

/-- `getStreamUrl` lines 224-238: sort the audio streams by descending
bitrate, then pick index 0 for `high`, the last index for `low`, and
`Math.floor(length / 2)` otherwise (`medium`). -/
def selectStream (quality : String) (audioStreams : List AudioVariant) :
    Option AudioVariant :=
  let s := sortByBitrateDesc audioStreams
  if quality = "high" then s.head?
  else if quality = "low" then s.getLast?
  else s.get? (s.length / 2)

theorem insDesc_perm (x : AudioVariant) (l : List AudioVariant) :
    (insDesc x l).Perm (x :: l) := by
  induction l with
  | nil => exact List.Perm.refl _
  | cons y ys ih =>
    unfold insDesc
    by_cases h : bitKeyD y ≤ bitKeyD x
    · rw [if_pos h]
    · rw [if_neg h]
      exact (List.Perm.cons y ih).trans (List.Perm.swap x y ys)

theorem sortByBitrateDesc_perm (l : List AudioVariant) :
    (sortByBitrateDesc l).Perm l := by
  induction l with
  | nil => exact List.Perm.refl _
  | cons x xs ih =>
    exact (insDesc_perm x (sortByBitrateDesc xs)).trans (List.Perm.cons x ih)

theorem insDesc_sorted {x : AudioVariant} {l : List AudioVariant}
    (h : l.Pairwise (fun a b => bitKeyD b ≤ bitKeyD a)) :
    (insDesc x l).Pairwise (fun a b => bitKeyD b ≤ bitKeyD a) := by
  induction l with
  | nil => simp [insDesc]
  | cons y ys ih =>
    rw [List.pairwise_cons] at h
    unfold insDesc
    by_cases hxy : bitKeyD y ≤ bitKeyD x
    · rw [if_pos hxy]
      refine List.pairwise_cons.mpr ⟨?_, List.pairwise_cons.mpr h⟩
      intro z hz
      rcases List.mem_cons.mp hz with rfl | hz
      · exact hxy
      · exact (h.1 z hz).trans hxy
    · rw [if_neg hxy]
      refine List.pairwise_cons.mpr ⟨?_, ih h.2⟩
      intro z hz
      have hz' := (insDesc_perm x ys).mem_iff.mp hz
      rcases List.mem_cons.mp hz' with rfl | hz'
      · exact le_of_lt (lt_of_not_le hxy)
      · exact h.1 z hz'

theorem sortByBitrateDesc_sorted (l : List AudioVariant) :
    (sortByBitrateDesc l).Pairwise (fun a b => bitKeyD b ≤ bitKeyD a) := by
  induction l with
  | nil => simp [sortByBitrateDesc]
  | cons x xs ih => exact insDesc_sorted ih

/-- In a descending-sorted list the last element has minimal key. -/
theorem sorted_getLast_min {l : List AudioVariant}
    (h : l.Pairwise (fun a b => bitKeyD b ≤ bitKeyD a)) (hne : l ≠ []) :
    ∀ z ∈ l, bitKeyD (l.getLast hne) ≤ bitKeyD z := by
  induction l with
  | nil => exact absurd rfl hne
  | cons a t ih =>
    cases t with
    | nil =>
      intro z hz
      rcases List.mem_cons.mp hz with rfl | hz
      · exact le_refl _
      · exact absurd hz (List.not_mem_nil z)
    | cons b t2 =>
      rw [List.pairwise_cons] at h
      have hlast : (a :: b :: t2).getLast hne = (b :: t2).getLast (by simp) := by
        simp [List.getLast]
      intro z hz
      rcases List.mem_cons.mp hz with rfl | hz
      · rw [hlast]
        exact h.1 _ (List.getLast_mem _)
      · rw [hlast]
        exact ih h.2 (by simp) z hz

/-- The conclusion of C2 for one list: the sort is a descending-by-bitrate
permutation, `high` picks a maximal-bitrate member, `low` a minimal-bitrate
member, and `medium` the element at the floored midpoint of the sorted
list. -/
def QualitySelectionSpec (l : List AudioVariant) : Prop :=
  (sortByBitrateDesc l).Perm l ∧
  (sortByBitrateDesc l).Pairwise (fun a b => bitKeyD b ≤ bitKeyD a) ∧
  (∃ v, selectStream "high" l = some v ∧ v ∈ l ∧
    ∀ u ∈ l, bitKeyD u ≤ bitKeyD v) ∧
  (∃ w, selectStream "low" l = some w ∧ w ∈ l ∧
    ∀ u ∈ l, bitKeyD w ≤ bitKeyD u) ∧
  selectStream "medium" l =
    (sortByBitrateDesc l).get? ((sortByBitrateDesc l).length / 2)

/-- The `[320, 256, 128, 64]` example of the spec. -/
def exVariants : List AudioVariant :=
  [⟨some "audio/mp4", some "320", some "u320"⟩,
    ⟨some "audio/mp4", some "256", some "u256"⟩,
    ⟨some "audio/webm", some "128", some "u128"⟩,
    ⟨some "audio/webm", some "64", some "u64"⟩]

/-- C2: for every non-empty variant list whose bitrates parse (no NaN keys,
where the JS sort would be implementation-defined), stream extraction sorts
descending by bitrate and selects highest for `high`, lowest for `low` and
the floored midpoint of the sorted list for `medium`; on bitrates
`[320, 256, 128, 64]` this yields 320, 64 and 128 respectively. -/
theorem c2_quality_selection :
    (∀ l : List AudioVariant, l ≠ [] →
      (∀ v ∈ l, (bitrateKey v).isSome) → QualitySelectionSpec l) ∧
    selectStream "high" exVariants = some ⟨some "audio/mp4", some "320", some "u320"⟩ ∧
    selectStream "low" exVariants = some ⟨some "audio/webm", some "64", some "u64"⟩ ∧
    selectStream "medium" exVariants = some ⟨some "audio/webm", some "128", some "u128"⟩ := by
  refine ⟨fun l hne _ => ?_, by decide, by decide, by decide⟩
  have hperm := sortByBitrateDesc_perm l
  have hsort := sortByBitrateDesc_sorted l
  have hsne : sortByBitrateDesc l ≠ [] := by
    intro h0
    rw [← List.length_pos] at hne
    have := hperm.length_eq
    rw [h0] at this
    simp at this
    omega
  refine ⟨hperm, hsort, ?_, ?_, rfl⟩
  · obtain ⟨v, t, hvt⟩ := List.exists_cons_of_ne_nil hsne
    refine ⟨v, ?_, ?_, ?_⟩
    · show (sortByBitrateDesc l).head? = some v
      rw [hvt]
      rfl
    · exact hperm.mem_iff.mp (hvt ▸ List.mem_cons_self v t)
    · intro u hu
      have hu' := hperm.mem_iff.mpr hu
      rw [hvt] at hu' hsort
      rcases List.mem_cons.mp hu' with rfl | hu'
      · exact le_refl _
      · exact List.rel_of_pairwise_cons hsort hu'
  · refine ⟨(sortByBitrateDesc l).getLast hsne, ?_, ?_, ?_⟩
    · show (sortByBitrateDesc l).getLast? = _
      exact List.getLast?_eq_getLast _ hsne
    · exact hperm.mem_iff.mp (List.getLast_mem hsne)
    · intro u hu
      exact sorted_getLast_min hsort hsne u (hperm.mem_iff.mpr hu)

/-- C2 witness: the general statement applied to the `[320, 256, 128, 64]`
example. -/
theorem c2_witness :
    (exVariants ≠ [] ∧ ∀ v ∈ exVariants, (bitrateKey v).isSome) ∧
    QualitySelectionSpec exVariants :=
  ⟨⟨by decide, by decide⟩,
    c2_quality_selection.1 exVariants (by decide) (by decide)⟩

/-- C10 counterexample: a non-empty unparseable bitrate string is NaN in the
comparator (`parseInt("notanumber")`), not 0 as the claim states. -/
theorem c10_counterexample :
    bitrateKey ⟨some "audio/mp4", some "notanumber", some "u"⟩ ≠ some 0 ∧
    bitrateKey ⟨some "audio/mp4", some "notanumber", some "u"⟩ = none := by
  decide

/-- C10 (amended): a variant whose bitrate field is absent is compared as 0
and, among variants with positive parsed bitrates, sorts last, so `low`
selects it.  (A non-empty unparseable bitrate instead yields NaN, making the
JS sort order implementation-defined.) -/
theorem c10_missing_bitrate_sorts_last :
    ∀ (l1 l2 : List AudioVariant) (v : AudioVariant), v.bitrate = none →
      (∀ u ∈ l1 ++ l2, (bitrateKey u).isSome ∧ 0 < bitKeyD u) →
      (sortByBitrateDesc (l1 ++ v :: l2)).getLast? = some v ∧
      selectStream "low" (l1 ++ v :: l2) = some v := by
  intro l1 l2 v hv hpos
  have hkv : bitKeyD v = 0 := by
    unfold bitKeyD bitrateKey
    rw [hv]
    rfl
  have hperm := sortByBitrateDesc_perm (l1 ++ v :: l2)
  have hsort := sortByBitrateDesc_sorted (l1 ++ v :: l2)
  have hne : l1 ++ v :: l2 ≠ [] := by simp
  have hsne : sortByBitrateDesc (l1 ++ v :: l2) ≠ [] := by
    intro h0
    have := hperm.length_eq
    rw [h0] at this
    simp at this
    omega
  have hvmem : v ∈ sortByBitrateDesc (l1 ++ v :: l2) := by
    rw [hperm.mem_iff]
    exact List.mem_append_right l1 (List.mem_cons_self v l2)
  have hlast_le : bitKeyD ((sortByBitrateDesc (l1 ++ v :: l2)).getLast hsne) ≤ 0 := by
    rw [← hkv]
    exact sorted_getLast_min hsort hsne v hvmem
  have hlast_mem : (sortByBitrateDesc (l1 ++ v :: l2)).getLast hsne ∈ l1 ++ v :: l2 :=
    hperm.mem_iff.mp (List.getLast_mem hsne)
  have hlast_eq : (sortByBitrateDesc (l1 ++ v :: l2)).getLast hsne = v := by
    rcases List.mem_append.mp hlast_mem with h1 | h2
    · have := (hpos _ (List.mem_append_left l2 h1)).2
      omega
    · rcases List.mem_cons.mp h2 with h3 | h4
      · exact h3
      · have := (hpos _ (List.mem_append_right l1 h4)).2
        omega
  constructor
  · rw [List.getLast?_eq_getLast _ hsne, hlast_eq]
  · show (sortByBitrateDesc (l1 ++ v :: l2)).getLast? = some v
    rw [List.getLast?_eq_getLast _ hsne, hlast_eq]

/-- C10 witness: the amended statement applied to a concrete list with a
missing-bitrate variant among positive-bitrate variants. -/
theorem c10_witness :
    ((⟨some "audio/mp4", none, some "uX"⟩ : AudioVariant).bitrate = none ∧
      ∀ u ∈ [⟨some "audio/mp4", some "320", some "u320"⟩,
          (⟨some "audio/webm", some "128", some "u128"⟩ : AudioVariant)] ++
          [⟨some "audio/webm", some "64", some "u64"⟩],
        (bitrateKey u).isSome ∧ 0 < bitKeyD u) ∧
    (sortByBitrateDesc ([⟨some "audio/mp4", some "320", some "u320"⟩,
        ⟨some "audio/webm", some "128", some "u128"⟩] ++
        ⟨some "audio/mp4", none, some "uX"⟩ ::
        [⟨some "audio/webm", some "64", some "u64"⟩])).getLast? =
      some ⟨some "audio/mp4", none, some "uX"⟩ ∧
    selectStream "low" ([⟨some "audio/mp4", some "320", some "u320"⟩,
        ⟨some "audio/webm", some "128", some "u128"⟩] ++
        ⟨some "audio/mp4", none, some "uX"⟩ ::
        [⟨some "audio/webm", some "64", some "u64"⟩]) =
      some ⟨some "audio/mp4", none, some "uX"⟩ :=
  ⟨⟨rfl, by decide⟩,
    c10_missing_bitrate_sorts_last _ _ _ rfl (by decide)⟩

/-! ## Frontend resolver (`src/services/youtubeService.js`): JS value helpers -/

/-- Truthiness of a possibly-absent JS string: `undefined`/`null` and `""`
are falsy. -/
def jsTruthy : Option String → Bool
  | some s => s ≠ ""
  | none => false

/-- Template-literal stringification of a possibly-absent JS string:
`undefined` prints as `"undefined"`. -/
def jsToStr : Option String → String
  | some s => s
  | none => "undefined"

/-- JS `a || b` on possibly-absent strings. -/
def jsOr (a b : Option String) : Option String :=
  if jsTruthy a then a else b

/-- The frontend track object, restricted to the fields the resolver reads:
`id`, `url`, `name`, `title`, `artists` (modelled by the artist names) and
`channelTitle`. -/
structure RTrack where
  id : Option String
  url : Option String
  name : Option String
  title : Option String
  artistNames : Option (List String)
  channelTitle : Option String
deriving DecidableEq, Repr

/-- A search result produced by `searchJioSaavn`/`searchYouTube`, restricted
to the fields the resolver reads afterwards. -/
structure FCand where
  id : Option String
  name : Option String
  title : Option String
  channelTitle : String
  url : Option String
  artistNames : List String
deriving DecidableEq, Repr

/-- `getJioSaavnAudioUrl` lines 38-40: the strict query
`` `${track.name || track.title} ${artistName}`.trim() `` where `artistName`
is `track.artists && track.artists[0] ? track.artists[0].name : ""`. -/
def strictQuery (t : RTrack) : String :=
  trimStr (jsToStr (jsOr t.name t.title) ++ " " ++
    (match t.artistNames with
      | some (a :: _) => a
      | _ => ""))

/-- `getJioSaavnAudioUrl` line 54: the loosened retry query
`(track.name || track.title || "").trim()`. -/
def looseQuery (t : RTrack) : String :=
  trimStr (jsToStr (jsOr (jsOr t.name t.title) (some "")))

/-- `getJioSaavnAudioUrl` lines 30-72.  The searching provider is passed as
an oracle (`searchJioSaavn` is total: it catches its own failures and
returns `[]`, so the try/catch around each attempt never fires).  The second
component records the queries actually issued, one per search attempt;
a falsy (empty) query skips its attempt.  The result is the `url` field of
the first result, or the `Track not found on JioSaavn` error after both
attempts found nothing. -/
def getJioSaavnAudioUrl (search : String → List FCand) (t : RTrack) :
    Except String (Option String) × List String :=
  if jsTruthy t.url then (Except.ok t.url, [])
  else
    let q := strictQuery t
    let first : List FCand × List String :=
      if q ≠ "" then (search q, [q]) else ([], [])
    let both : List FCand × List String :=
      if first.1.isEmpty then
        let rq := looseQuery t
        if rq ≠ "" then (search rq, first.2 ++ [rq]) else first
      else first
    match both with
    | ([], attempts) => (Except.error "Track not found on JioSaavn", attempts)
    | (r :: _, attempts) => (Except.ok r.url, attempts)

theorem trimChars_eq_nil_iff {cs : List Char} :
    trimChars cs = [] ↔ ∀ c ∈ cs, wsB c = true := by
  unfold trimChars
  rw [List.reverse_eq_nil_iff, List.dropWhile_eq_nil_iff]
  constructor
  · intro h c hc
    have hsplit := List.takeWhile_append_dropWhile wsB cs
    rw [← hsplit] at hc
    rcases List.mem_append.mp hc with h1 | h2
    · exact List.mem_takeWhile_imp h1
    · exact h c (List.mem_reverse.mpr h2)
  · intro h c hc
    exact h c ((List.dropWhile_sublist wsB).subset (List.mem_reverse.mp hc))

theorem trimStr_eq_empty_iff {s : String} :
    trimStr s = "" ↔ ∀ c ∈ s.data, wsB c = true := by
  unfold trimStr
  rw [show ("" : String) = ⟨[]⟩ from rfl]
  constructor
  · intro h
    injection h with h
    exact trimChars_eq_nil_iff.mp h
  · intro h
    rw [trimChars_eq_nil_iff.mpr h]

/-- A non-empty loosened query forces a non-empty strict query: the strict
query extends the same coalesced title with the artist name. -/
theorem strictQuery_ne_empty {t : RTrack} (h : looseQuery t ≠ "") :
    strictQuery t ≠ "" := by
  unfold looseQuery at h
  unfold strictQuery
  by_cases ht : jsTruthy (jsOr t.name t.title) = true
  · rw [show jsOr (jsOr t.name t.title) (some "") = jsOr t.name t.title from
      if_pos ht] at h
    intro h0
    apply h
    rw [trimStr_eq_empty_iff] at h0 ⊢
    intro c hc
    apply h0
    rw [String.data_append, String.data_append]
    exact List.mem_append_left _ (List.mem_append_left _ hc)
  · exfalso
    apply h
    rw [show jsOr (jsOr t.name t.title) (some "") = some "" from
      if_neg (by simpa using ht)]
    rfl

/-- The conclusion of C3 (amended) for one oracle and track: the strict
query is attempted first; the loosened query is attempted exactly when the
strict attempt returned zero results; `TrackNotFound` surfaces only after
both attempts returned zero results, with both attempts on record. -/
def TwoAttemptSpec (search : String → List FCand) (t : RTrack) : Prop :=
  (∀ r rs, search (strictQuery t) = r :: rs →
    getJioSaavnAudioUrl search t = (Except.ok r.url, [strictQuery t])) ∧
  (search (strictQuery t) = [] → ∀ r rs, search (looseQuery t) = r :: rs →
    getJioSaavnAudioUrl search t =
      (Except.ok r.url, [strictQuery t, looseQuery t])) ∧
  (search (strictQuery t) = [] → search (looseQuery t) = [] →
    getJioSaavnAudioUrl search t =
      (Except.error "Track not found on JioSaavn",
        [strictQuery t, looseQuery t]))

/-- C3 counterexample: a track whose name and title are both the empty
string and which carries no artist issues no search attempt at all, yet
`TrackNotFound` is surfaced — so the failure is not always preceded by the
two search attempts the claim describes. -/
theorem c3_counterexample :
    getJioSaavnAudioUrl (fun _ => []) ⟨none, none, some "", some "", none, none⟩ =
      (Except.error "Track not found on JioSaavn", []) := by
  rfl

/-- C3 (amended): for every track without a direct URL whose coalesced
title is non-empty after trimming, the resolver performs at most two search
attempts — strict first, loosened only when the strict attempt yielded zero
results — and surfaces `TrackNotFound` only after both attempts yielded
zero results. -/
theorem c3_two_attempt_resolution :
    ∀ (search : String → List FCand) (t : RTrack),
      jsTruthy t.url = false → looseQuery t ≠ "" →
      TwoAttemptSpec search t := by
  intro search t hurl hloose
  have hstrict : strictQuery t ≠ "" := strictQuery_ne_empty hloose
  refine ⟨?_, ?_, ?_⟩
  · intro r rs hsr
    simp [getJioSaavnAudioUrl, hurl, hstrict, hsr]
  · intro h1 r rs hsr
    simp [getJioSaavnAudioUrl, hurl, hstrict, hloose, h1, hsr]
  · intro h1 h2
    simp [getJioSaavnAudioUrl, hurl, hstrict, hloose, h1, h2]

/-- The sample track of the C3 witness. -/
def sampleTrack : RTrack := ⟨none, none, some "Song", none, some ["Artist"], none⟩

/-- C3 witness: the amended statement applied to a concrete track and an
oracle that always returns zero results. -/
theorem c3_witness :
    jsTruthy sampleTrack.url = false ∧ looseQuery sampleTrack ≠ "" ∧
    TwoAttemptSpec (fun _ => []) sampleTrack :=
  ⟨rfl, by decide, c3_two_attempt_resolution (fun _ => []) sampleTrack rfl (by decide)⟩

/-! ## C6: provider search error handling
(`searchJioSaavn` lines 74-125, `searchYouTube` lines 160-196) -/

/-- A completed fetch whose JSON body has been parsed into shape `β`:
`ok`/`status` mirror the response object, `json = none` models a throwing
`response.json()`.  A whole-fetch network failure is modelled by `none` at
the `Option (FetchResp β)` call sites. -/
structure FetchResp (β : Type) where
  ok : Bool
  status : Nat
  json : Option β
deriving DecidableEq, Repr

/-- One entry of an array-valued `image`/`downloadUrl` field. -/
structure JLink where
  link : Option String
  url : Option String
deriving DecidableEq, Repr

/-- An array-or-scalar `downloadUrl` field, as the parser tolerates both. -/
inductive JUrlField
  | arr (links : List JLink)
  | scalar (s : Option String)
deriving DecidableEq, Repr

/-- The artists shapes tolerated by the parser: `item.artists.primary`
(objects with names), `item.artists` as a plain array, or absent. -/
inductive JArtistsField
  | primaryObj (names : List String)
  | plainArr (names : List String)
  | absent
deriving DecidableEq, Repr

/-- A raw JioSaavn result item, restricted to the fields the parser reads
(the `image`, `duration` and `isOfficial` outputs are not consumed by any
claim and are omitted). -/
structure JItem where
  id : Option String
  name : Option String
  title : Option String
  downloadUrl : JUrlField
  artists : JArtistsField
  primaryArtists : Option String
deriving DecidableEq, Repr

/-- `searchJioSaavn` lines 85-119: shape one raw item into a result.
`Math.random()` for an absent id is modelled by a fixed placeholder (no
claim reads it). -/
def mapJItem (i : JItem) : FCand :=
  let artists : List String :=
    match i.artists with
    | .primaryObj names => names
    | .plainArr names => names
    | .absent =>
      match i.primaryArtists with
      | some s => [s]
      | none => []
  let downloadUrl : Option String :=
    match i.downloadUrl with
    | .arr links =>
      match links.getLast? with
      | some l => jsOr l.link l.url
      | none => none
    | .scalar s => s
  { id := jsOr i.id (some "random-id"),
    name := jsOr i.name i.title,
    title := jsOr i.name i.title,
    channelTitle := jsToStr (jsOr artists.head? (some "Unknown Artist")),
    url := downloadUrl,
    artistNames := artists }

/-- The candidate value of `data.data?.results || data.results || data.data`:
an array of items, or a truthy non-array value (rejected by
`Array.isArray`). -/
inductive JResultsVal
  | items (l : List JItem)
  | notArray
deriving DecidableEq, Repr

/-- The parsed JioSaavn search response: the first truthy value of the
`data.data?.results || data.results || data.data` chain (`none` when all
three are falsy, in which case the `|| []` default applies). -/
structure JRespData where
  resultsVal : Option JResultsVal
deriving DecidableEq, Repr

/-- The body of `searchJioSaavn` (lines 75-120) up to its catch-all:
network failure, a non-success response and a JSON parse failure throw;
a missing or non-array results value yields `[]`. -/
def searchJioSaavnBody (o : Option (FetchResp JRespData)) :
    Except String (List FCand) :=
  match o with
  | none => Except.error "fetch failed"
  | some r =>
    if !r.ok then Except.error "JioSaavn search failed"
    else
      match r.json with
      | none => Except.error "json parse failed"
      | some d =>
        match d.resultsVal with
        | some (.items l) => Except.ok (l.map mapJItem)
        | some .notArray => Except.ok []
        | none => Except.ok []

/-- `searchJioSaavn` with its catch-all (lines 121-124): any failure is
logged and turned into `[]`. -/
def searchJioSaavn (o : Option (FetchResp JRespData)) : List FCand :=
  match searchJioSaavnBody o with
  | Except.ok l => l
  | Except.error _ => []

/-- A raw Piped search item, restricted to the fields `searchYouTube`
reads. -/
structure YtItem where
  isShort : Bool
  type : String
  title : Option String
  uploaderName : Option String
  url : String
deriving DecidableEq, Repr

/-- The parsed Piped search response. -/
structure YtData where
  items : Option (List YtItem)
deriving DecidableEq, Repr

/-- JS `s.endsWith(suffix)`. -/
def endsWithJs (s suffix : String) : Bool :=
  suffix.data.isSuffixOf s.data

/-- JS `url.split('v=')`: the segments of the string between occurrences of
`v=`. -/
def splitVEq : List Char → List (List Char)
  | [] => [[]]
  | 'v' :: '=' :: rest => [] :: splitVEq rest
  | c :: rest =>
    match splitVEq rest with
    | s :: ss => (c :: s) :: ss
    | [] => [[c]]

/-- `searchYouTube` lines 173-190: shape one Piped item into a result
(`filter` is the constant `'music_songs'`, so the ` - Topic` suffix check
always applies; the video id is `item.url.split('v=')[1]`). -/
def mapYtItem (i : YtItem) : FCand :=
  let uploaderName0 := jsToStr (jsOr i.uploaderName (some "Unknown"))
  let uploaderName :=
    if endsWithJs uploaderName0 " - Topic" then uploaderName0
    else uploaderName0 ++ " - Topic"
  let videoId := ((splitVEq i.url.data).get? 1).map (fun l => (⟨l⟩ : String))
  { id := videoId, name := i.title, title := i.title,
    channelTitle := uploaderName, url := none,
    artistNames := [uploaderName] }

/-- `searchYouTube` lines 160-196.  Unlike the JioSaavn client, its catch
block logs and RE-THROWS (line 194), so every failure propagates to the
caller; only an absent `items` field yields `Except.ok []`. -/
def searchYouTube (o : Option (FetchResp YtData)) : Except String (List FCand) :=
  match o with
  | none => Except.error "fetch failed"
  | some r =>
    if !r.ok then Except.error ("Search API error: " ++ toString r.status)
    else
      match r.json with
      | none => Except.error "json parse failed"
      | some d =>
        match d.items with
        | none => Except.ok []
        | some items =>
          Except.ok
            ((items.filter (fun i => !i.isShort && i.type == "stream")).map mapYtItem)

/-- C6 counterexample: `searchYouTube` on a non-success response propagates
an error to its caller instead of returning an empty sequence, contrary to
the claim that a metadata-search provider failure is never propagated
raw. -/
theorem c6_counterexample :
    searchYouTube (some ⟨false, 500, some ⟨some []⟩⟩) =
      Except.error "Search API error: 500" := by
  rfl

/-- C6 (amended): the JioSaavn search client returns an empty sequence
rather than failing — every failure of its body (network, non-success,
parse) is caught at the call site, and an empty result list maps to `[]` —
whereas the YouTube search client returns `[]` only for an absent result
list and propagates network, parse and non-success failures raw to its
caller. -/
theorem c6_provider_error_handling :
    (∀ (o : Option (FetchResp JRespData)) (e : String),
      searchJioSaavnBody o = Except.error e → searchJioSaavn o = []) ∧
    searchJioSaavn none = [] ∧
    (∀ r : FetchResp JRespData, r.ok = false → searchJioSaavn (some r) = []) ∧
    (∀ st : Nat,
      searchJioSaavn (some ⟨true, st, some ⟨some (JResultsVal.items [])⟩⟩) = []) ∧
    searchYouTube none = Except.error "fetch failed" ∧
    (∀ (st : Nat) (j : Option YtData),
      searchYouTube (some ⟨false, st, j⟩) =
        Except.error ("Search API error: " ++ toString st)) ∧
    (∀ st : Nat, searchYouTube (some ⟨true, st, some ⟨none⟩⟩) = Except.ok []) := by
  refine ⟨?_, rfl, ?_, fun st => rfl, rfl, fun st j => rfl, fun st => rfl⟩
  · intro o e h
    unfold searchJioSaavn
    rw [h]
  · intro r h
    simp [searchJioSaavn, searchJioSaavnBody, h]

/-- C6 witness: the quantified components applied to concrete fetch
outcomes. -/
theorem c6_witness :
    (searchJioSaavnBody none = Except.error "fetch failed" ∧
      searchJioSaavn none = []) ∧
    ((⟨false, 404, none⟩ : FetchResp JRespData).ok = false ∧
      searchJioSaavn (some ⟨false, 404, none⟩) = []) ∧
    searchYouTube (some ⟨false, 404, none⟩) =
      Except.error ("Search API error: " ++ toString 404) :=
  ⟨⟨rfl, c6_provider_error_handling.1 none "fetch failed" rfl⟩,
    ⟨rfl, c6_provider_error_handling.2.2.1 ⟨false, 404, none⟩ rfl⟩,
    c6_provider_error_handling.2.2.2.2.2.1 404 none⟩

/-! ## C7: candidate choice on the resolution paths
(`getJioSaavnAudioUrl` lines 64-71, `getYouTubeAudioUrl` lines 129-158) -/

/-- `getYouTubeAudioUrl` lines 139-140: the search query
`` `${track.name || track.title} ${artistNames}` `` where `artistNames` is
`track.artists ? track.artists.map(a => a.name).join(' ') : (track.channelTitle || '')`
(note: no trim on this path). -/
def ytQuery (t : RTrack) : String :=
  jsToStr (jsOr t.name t.title) ++ " " ++
    (match t.artistNames with
      | some l => String.intercalate " " l
      | none => jsToStr (jsOr t.channelTitle (some "")))

/-- `getYouTubeAudioUrl` lines 129-158: direct-url short-circuit; when the
id is falsy or not 11 characters long, search YouTube and use the FIRST
result's id; otherwise use the id directly; then extract the stream via the
`getStream` oracle (`getStreamUrl`).  The searcher may fail (its errors are
re-thrown by the catch on line 156). -/
def getYouTubeAudioUrl (searchYT : String → Except String (List FCand))
    (getStream : String → Except String String) (t : RTrack) :
    Except String String :=
  if jsTruthy t.url then Except.ok (jsToStr t.url)
  else
    let videoId := t.id
    if !(jsTruthy videoId) || (jsToStr videoId).length != 11 then
      match searchYT (ytQuery t) with
      | Except.error e => Except.error e
      | Except.ok [] => Except.error "No matching videos found on YouTube"
      | Except.ok (r :: _) => getStream (jsToStr r.id)
    else getStream (jsToStr videoId)

/-- The track of the C7 counterexample. -/
def blTrack : RTrack :=
  ⟨none, none, some "Blinding Lights", none, some ["The Weeknd"], none⟩

/-- The provider results of the C7 counterexample: the first result is a
wrong-title track, the second is the one the matcher would choose. -/
def wrongFirstResults : List FCand :=
  [⟨some "j1", some "Wrong Song", some "Wrong Song", "DJ X", some "u1", ["DJ X"]⟩,
    ⟨some "j2", some "Blinding Lights", some "Blinding Lights", "The Weeknd",
      some "u2", ["The Weeknd"]⟩]

/-- C7 counterexample: the metadata-search path of the Resolver returns the
first provider result's url (`u1`) even though
`TextMatcher.selectBestCandidate` on the same candidates selects the second
candidate (whose url is `u2`): no ranking is applied by the Resolver. -/
theorem c7_counterexample :
    getJioSaavnAudioUrl (fun _ => wrongFirstResults) blTrack =
      (Except.ok (some "u1"), ["Blinding Lights The Weeknd"]) ∧
    findMatchingTrack
      [⟨"Wrong Song", ["DJ X"], []⟩, ⟨"Blinding Lights", ["The Weeknd"], []⟩]
      "Blinding Lights" "The Weeknd" =
      some ⟨"Blinding Lights", ["The Weeknd"], []⟩ ∧
    (some "u1" : Option String) ≠ some "u2" :=
  ⟨rfl, by decide, by decide⟩

/-- C7 (amended): the Resolver applies no TextMatcher ranking.  On the
metadata-search path it extracts the stream of the FIRST candidate the
provider returned (for JioSaavn, `results[0].url`; for YouTube, the first
search result's id); on the native-id path (an 11-character id) the id is
used directly. -/
theorem c7_first_result_and_native_id :
    (∀ (search : String → List FCand) (t : RTrack) (r : FCand) (rs : List FCand),
      jsTruthy t.url = false → strictQuery t ≠ "" →
      search (strictQuery t) = r :: rs →
      getJioSaavnAudioUrl search t = (Except.ok r.url, [strictQuery t])) ∧
    (∀ (searchYT : String → Except String (List FCand))
        (getStream : String → Except String String) (t : RTrack)
        (r : FCand) (rs : List FCand),
      jsTruthy t.url = false →
      (!(jsTruthy t.id) || (jsToStr t.id).length != 11) = true →
      searchYT (ytQuery t) = Except.ok (r :: rs) →
      getYouTubeAudioUrl searchYT getStream t = getStream (jsToStr r.id)) ∧
    (∀ (searchYT : String → Except String (List FCand))
        (getStream : String → Except String String) (t : RTrack) (i : String),
      jsTruthy t.url = false → t.id = some i → i.length = 11 →
      getYouTubeAudioUrl searchYT getStream t = getStream i) := by
  refine ⟨?_, ?_, ?_⟩
  · intro search t r rs hurl hq hres
    simp [getJioSaavnAudioUrl, hurl, hq, hres]
  · intro searchYT getStream t r rs hurl hneed hres
    simp [getYouTubeAudioUrl, hurl, hneed, hres]
  · intro searchYT getStream t i hurl hid hlen
    have htr : jsTruthy (some i) = true := by
      unfold jsTruthy
      simp only [decide_eq_true_eq]
      intro h0
      rw [h0] at hlen
      simp at hlen
    simp [getYouTubeAudioUrl, hurl, hid]
    rw [if_neg]
    · rfl
    · intro hor
      rcases hor with h2 | h2
      · rw [htr] at h2
        exact Bool.true_eq_false.mp h2
      · exact h2 hlen

/-- C7 witness: the three components applied to concrete inputs. -/
theorem c7_witness :
    (jsTruthy blTrack.url = false ∧ strictQuery blTrack ≠ "" ∧
      getJioSaavnAudioUrl (fun _ => wrongFirstResults) blTrack =
        (Except.ok (some "u1"), [strictQuery blTrack])) ∧
    getYouTubeAudioUrl (fun _ => Except.ok wrongFirstResults)
        (fun v => Except.ok ("stream of " ++ v)) blTrack =
      Except.ok ("stream of " ++ jsToStr (some "j1")) ∧
    getYouTubeAudioUrl (fun _ => Except.ok [])
        (fun v => Except.ok ("stream of " ++ v))
        ⟨some "abcdefghijk", none, some "Song", none, none, none⟩ =
      Except.ok ("stream of " ++ "abcdefghijk") :=
  ⟨⟨rfl, by decide,
      c7_first_result_and_native_id.1 (fun _ => wrongFirstResults) blTrack
        _ _ rfl (by decide) rfl⟩,
    c7_first_result_and_native_id.2.1 (fun _ => Except.ok wrongFirstResults)
      (fun v => Except.ok ("stream of " ++ v)) blTrack _ _ rfl (by decide) rfl,
    c7_first_result_and_native_id.2.2 (fun _ => Except.ok [])
      (fun v => Except.ok ("stream of " ++ v))
      ⟨some "abcdefghijk", none, some "Song", none, none, none⟩
      "abcdefghijk" rfl rfl (by decide)⟩

/-! ## C4/C5: the streaming proxy (`server.cjs` lines 215-245) -/

/-- UTF-8 encoding of one Unicode scalar value. -/
def utf8Encode (c : Char) : List Nat :=
  if c.toNat < 128 then [c.toNat]
  else if c.toNat < 2048 then [192 + c.toNat / 64, 128 + c.toNat % 64]
  else if c.toNat < 65536 then
    [224 + c.toNat / 4096, 128 + (c.toNat / 64) % 64, 128 + c.toNat % 64]
  else
    [240 + c.toNat / 262144, 128 + (c.toNat / 4096) % 64,
      128 + (c.toNat / 64) % 64, 128 + c.toNat % 64]

/-- Number of continuation bytes announced by a UTF-8 lead byte. -/
def contBytes (b : Nat) : Nat :=
  if b < 128 then 0 else if b < 224 then 1 else if b < 240 then 2 else 3

/-- Scalar value of a lead byte and its continuation bytes. -/
def decodeScalar (b : Nat) (cont : List Nat) : Nat :=
  match cont with
  | [] => b
  | [b2] => (b - 192) * 64 + (b2 - 128)
  | [b2, b3] => (b - 224) * 4096 + (b2 - 128) * 64 + (b3 - 128)
  | b2 :: b3 :: b4 :: _ =>
    (b - 240) * 262144 + (b2 - 128) * 4096 + (b3 - 128) * 64 + (b4 - 128)

/-- UTF-8 decoding of a byte list (lenient on malformed input, which never
arises from `utf8Encode` output). -/
def utf8Decode : List Nat → List Char
  | [] => []
  | b :: bs =>
    Char.ofNat (decodeScalar b (bs.take (contBytes b))) ::
      utf8Decode (bs.drop (contBytes b))
  termination_by l => l.length
  decreasing_by
  simp only [List.length_drop, List.length_cons]
  omega

/-- The characters `encodeURIComponent` leaves unescaped:
`A-Z a-z 0-9 - _ . ! ~ * apostrophe ( )`. -/
def uriUnreserved (c : Char) : Bool :=
  (65 ≤ c.toNat && c.toNat ≤ 90) || (97 ≤ c.toNat && c.toNat ≤ 122) ||
    (48 ≤ c.toNat && c.toNat ≤ 57) ||
    c.toNat = 45 || c.toNat = 95 || c.toNat = 46 || c.toNat = 33 ||
    c.toNat = 126 || c.toNat = 42 || c.toNat = 39 || c.toNat = 40 ||
    c.toNat = 41

/-- Upper-case hexadecimal digit character of a value below 16. -/
def hexDigitChar (n : Nat) : Char :=
  if n < 10 then Char.ofNat (48 + n) else Char.ofNat (55 + n)

/-- The `%XX` escape of one byte. -/
def pctTriple (b : Nat) : List Char :=
  [Char.ofNat 37, hexDigitChar (b / 16), hexDigitChar (b % 16)]

/-- JS `encodeURIComponent` on a character list: unreserved characters pass
through, every other character becomes the `%XX` escapes of its UTF-8
bytes. -/
def encodeURIComponent (cs : List Char) : List Char :=
  cs.flatMap (fun c =>
    if uriUnreserved c then [c] else (utf8Encode c).flatMap pctTriple)

/-- Percent-unescaping to bytes: a `%XX` escape yields its byte, any other
character its UTF-8 bytes (lenient on malformed escapes, which never arise
from `encodeURIComponent` output). -/
def pctToBytes : List Char → List Nat
  | [] => []
  | c :: rest =>
    if c.toNat = 37 then
      match rest with
      | [] => utf8Encode c
      | [h] => utf8Encode c ++ utf8Encode h
      | h :: l :: rest2 =>
        if (hexDigitVal h).isSome && (hexDigitVal l).isSome then
          ((hexDigitVal h).getD 0 * 16 + (hexDigitVal l).getD 0) ::
            pctToBytes rest2
        else utf8Encode c ++ utf8Encode h ++ utf8Encode l ++ pctToBytes rest2
    else utf8Encode c ++ pctToBytes rest

/-- JS `decodeURIComponent` (adequate on `encodeURIComponent` output):
percent-unescape to bytes, then UTF-8 decode. -/
def decodeURIComponent (cs : List Char) : List Char :=
  utf8Decode (pctToBytes cs)

/-- Length of the URL scheme (`https://` or `http://`) at the start of the
list, if present — the `https?:\/\/` part of the rewrite regex. -/
def urlPrefixLen (cs : List Char) : Option Nat :=
  if "https://".data.isPrefixOf cs then some 8
  else if "http://".data.isPrefixOf cs then some 7
  else none

/-- The maximal non-whitespace run at the current position — the greedy
`[^\s]+` part of the rewrite regex (including the scheme characters). -/
def urlTok (cs : List Char) : List Char :=
  cs.takeWhile (fun d => !wsB d)

/-- The global replace of `server.cjs` line 236,
`playlistText.replace(/(https?:\/\/[^\s]+)/g, m => baseProxyUrl + encodeURIComponent(m))`:
at each position, a match is a URL scheme followed by at least one more
non-whitespace character, extending over the maximal non-whitespace run;
a match is replaced by the proxy base plus its percent-encoding, everything
else passes through unchanged. -/
def rewriteChars (base : List Char) : List Char → List Char
  | [] => []
  | c :: rest =>
    match urlPrefixLen (c :: rest) with
    | some k =>
      if k < (urlTok (c :: rest)).length then
        base ++ encodeURIComponent (urlTok (c :: rest)) ++
          rewriteChars base (rest.drop ((urlTok (c :: rest)).length - 1))
      else c :: rewriteChars base rest
    | none => c :: rewriteChars base rest
  termination_by cs => cs.length
  decreasing_by
  all_goals simp only [List.length_drop, List.length_cons]
  all_goals omega

/-- `server.cjs` line 235: `` `http://localhost:${port}/proxy?url=` `` with
`port = 3001`. -/
def proxyBase : String := "http://localhost:3001/proxy?url="

/-- The manifest rewrite lifted to strings. -/
def rewritePlaylist (base body : String) : String :=
  ⟨rewriteChars base.data body.data⟩

/-- JS `s.includes(pat)`. -/
def containsSub (pat : List Char) : List Char → Bool
  | [] => pat.isEmpty
  | c :: rest => pat.isPrefixOf (c :: rest) || containsSub pat rest

/-- The upstream fetch response observed by the `/proxy` handler. -/
structure UpstreamResponse where
  status : Nat
  statusText : String
  contentType : Option String
  contentLength : Option String
  contentRange : Option String
  body : String
deriving DecidableEq, Repr

/-- The response the `/proxy` handler sends. -/
structure ProxyResponse where
  status : Nat
  contentType : Option String
  contentLength : Option String
  contentRange : Option String
  accessControlAllowOrigin : Option String
  body : String
deriving DecidableEq, Repr

/-- `response.ok` of fetch: status in the 200-299 range. -/
def fetchOk (st : Nat) : Bool :=
  200 ≤ st && st ≤ 299

/-- The `/proxy` handler (`server.cjs` lines 215-245) given the `url` query
parameter, the incoming `Range` header, and the upstream fetch outcome
(`none` models a thrown fetch, caught as 500 `Proxy failed`):
a non-ok upstream status is propagated with its status text; otherwise the
`Content-Type` (defaulted), `Content-Length` and `Content-Range` are copied,
the CORS header is set, the status is 206 exactly when a `Range` header came
in, and an HLS manifest body (by content type or `.m3u8` url suffix) is
rewritten while any other body is piped through. -/
def proxyRelay (url : String) (range : Option String)
    (up : Option UpstreamResponse) : ProxyResponse :=
  match up with
  | none => ⟨500, none, none, none, none, "Proxy failed"⟩
  | some r =>
    if !fetchOk r.status then ⟨r.status, none, none, none, none, r.statusText⟩
    else
      let contentType := r.contentType.getD "application/vnd.apple.mpegurl"
      let status := if range.isSome then 206 else 200
      let body :=
        if containsSub "mpegurl".data contentType.data || endsWithJs url ".m3u8" then
          rewritePlaylist proxyBase r.body
        else r.body
      ⟨status, some contentType, r.contentLength, r.contentRange, some "*", body⟩

/-- C4 counterexample: with a `Range` header present but a non-ok upstream
(404), the proxy reports 404, not 206 — the upstream status does matter. -/
theorem c4_counterexample :
    (proxyRelay "http://u/file" (some "bytes=0-99")
      (some ⟨404, "Not Found", none, none, none, ""⟩)).status = 404 ∧
    (404 : Nat) ≠ 206 :=
  ⟨rfl, by decide⟩

/-- C4 (amended): whenever the upstream response is ok (2xx), a request
carrying a `Range` header is answered with status 206 regardless of which
2xx status the upstream used, and `Content-Range`, `Content-Length` and
`Content-Type` (defaulting to `application/vnd.apple.mpegurl`) are copied
from the upstream; a non-ok upstream status is instead propagated
unchanged. -/
theorem c4_range_gives_206 :
    (∀ (url range : String) (r : UpstreamResponse), fetchOk r.status = true →
      (proxyRelay url (some range) (some r)).status = 206 ∧
      (proxyRelay url (some range) (some r)).contentRange = r.contentRange ∧
      (proxyRelay url (some range) (some r)).contentLength = r.contentLength ∧
      (proxyRelay url (some range) (some r)).contentType =
        some (r.contentType.getD "application/vnd.apple.mpegurl")) ∧
    (∀ (url : String) (range : Option String) (r : UpstreamResponse),
      fetchOk r.status = false →
      (proxyRelay url range (some r)).status = r.status) := by
  constructor
  · intro url range r h
    refine ⟨?_, ?_, ?_, ?_⟩ <;> simp [proxyRelay, h]
  · intro url range r h
    simp [proxyRelay, h]

/-- C4 witness: the spec's round-trip example — `Range: bytes=0-99` against
an upstream answering 206 with `Content-Range: bytes 0-99/1000`. -/
theorem c4_witness :
    fetchOk 206 = true ∧
    (proxyRelay "http://u/file" (some "bytes=0-99")
        (some ⟨206, "Partial Content", some "audio/mp4", some "100",
          some "bytes 0-99/1000", "data"⟩)).status = 206 ∧
    (proxyRelay "http://u/file" (some "bytes=0-99")
        (some ⟨206, "Partial Content", some "audio/mp4", some "100",
          some "bytes 0-99/1000", "data"⟩)).contentRange =
      some "bytes 0-99/1000" :=
  ⟨rfl,
    (c4_range_gives_206.1 "http://u/file" "bytes=0-99"
      ⟨206, "Partial Content", some "audio/mp4", some "100",
        some "bytes 0-99/1000", "data"⟩ rfl).1,
    (c4_range_gives_206.1 "http://u/file" "bytes=0-99"
      ⟨206, "Partial Content", some "audio/mp4", some "100",
        some "bytes 0-99/1000", "data"⟩ rfl).2.1⟩

theorem char_toNat_lt (c : Char) : c.toNat < 1114112 := by
  have h := c.valid
  unfold UInt32.isValidChar at h
  rcases h with h | h
  · exact Nat.lt_trans h (by norm_num)
  · exact h.2

theorem utf8Decode_nil : utf8Decode [] = [] := by
  unfold utf8Decode
  rfl

theorem utf8Decode_cons (b : Nat) (bs : List Nat) :
    utf8Decode (b :: bs) =
      Char.ofNat (decodeScalar b (bs.take (contBytes b))) ::
        utf8Decode (bs.drop (contBytes b)) := by
  conv_lhs => unfold utf8Decode

theorem utf8Decode_encode (c : Char) (bs : List Nat) :
    utf8Decode (utf8Encode c ++ bs) = c :: utf8Decode bs := by
  have hofnat : Char.ofNat c.toNat = c := Char.ofNat_toNat c
  have hlt : c.toNat < 1114112 := char_toNat_lt c
  unfold utf8Encode
  by_cases h1 : c.toNat < 128
  · rw [if_pos h1]
    show utf8Decode (c.toNat :: bs) = _
    rw [utf8Decode_cons,
      show contBytes c.toNat = 0 from by unfold contBytes; rw [if_pos h1]]
    show Char.ofNat c.toNat :: utf8Decode bs = _
    rw [hofnat]
  · rw [if_neg h1]
    by_cases h2 : c.toNat < 2048
    · rw [if_pos h2]
      show utf8Decode ((192 + c.toNat / 64) :: (128 + c.toNat % 64) :: bs) = _
      rw [utf8Decode_cons,
        show contBytes (192 + c.toNat / 64) = 1 from by
          unfold contBytes
          rw [if_neg (by omega), if_pos (by omega)]]
      show Char.ofNat ((192 + c.toNat / 64 - 192) * 64 +
        (128 + c.toNat % 64 - 128)) :: utf8Decode bs = _
      rw [show (192 + c.toNat / 64 - 192) * 64 + (128 + c.toNat % 64 - 128)
        = c.toNat from by omega, hofnat]
    · rw [if_neg h2]
      by_cases h3 : c.toNat < 65536
      · rw [if_pos h3]
        show utf8Decode ((224 + c.toNat / 4096) :: (128 + (c.toNat / 64) % 64)
          :: (128 + c.toNat % 64) :: bs) = _
        rw [utf8Decode_cons,
          show contBytes (224 + c.toNat / 4096) = 2 from by
            unfold contBytes
            rw [if_neg (by omega), if_neg (by omega), if_pos (by omega)]]
        show Char.ofNat ((224 + c.toNat / 4096 - 224) * 4096 +
          (128 + (c.toNat / 64) % 64 - 128) * 64 +
          (128 + c.toNat % 64 - 128)) :: utf8Decode bs = _
        rw [show (224 + c.toNat / 4096 - 224) * 4096 +
          (128 + (c.toNat / 64) % 64 - 128) * 64 + (128 + c.toNat % 64 - 128)
          = c.toNat from by omega, hofnat]
      · rw [if_neg h3]
        show utf8Decode ((240 + c.toNat / 262144) :: (128 + (c.toNat / 4096) % 64)
          :: (128 + (c.toNat / 64) % 64) :: (128 + c.toNat % 64) :: bs) = _
        rw [utf8Decode_cons,
          show contBytes (240 + c.toNat / 262144) = 3 from by
            unfold contBytes
            rw [if_neg (by omega), if_neg (by omega), if_neg (by omega)]]
        show Char.ofNat ((240 + c.toNat / 262144 - 240) * 262144 +
          (128 + (c.toNat / 4096) % 64 - 128) * 4096 +
          (128 + (c.toNat / 64) % 64 - 128) * 64 +
          (128 + c.toNat % 64 - 128)) :: utf8Decode bs = _
        rw [show (240 + c.toNat / 262144 - 240) * 262144 +
          (128 + (c.toNat / 4096) % 64 - 128) * 4096 +
          (128 + (c.toNat / 64) % 64 - 128) * 64 + (128 + c.toNat % 64 - 128)
          = c.toNat from by omega, hofnat]

theorem utf8Encode_lt_256 (c : Char) : ∀ b ∈ utf8Encode c, b < 256 := by
  have hlt : c.toNat < 1114112 := char_toNat_lt c
  unfold utf8Encode
  by_cases h1 : c.toNat < 128
  · rw [if_pos h1]
    intro b hb
    simp only [List.mem_singleton] at hb
    omega
  · rw [if_neg h1]
    by_cases h2 : c.toNat < 2048
    · rw [if_pos h2]
      intro b hb
      simp only [List.mem_cons, List.mem_singleton, List.not_mem_nil, or_false] at hb
      rcases hb with rfl | rfl <;> omega
    · rw [if_neg h2]
      by_cases h3 : c.toNat < 65536
      · rw [if_pos h3]
        intro b hb
        simp only [List.mem_cons, List.not_mem_nil, or_false] at hb
        rcases hb with rfl | rfl | rfl <;> omega
      · rw [if_neg h3]
        intro b hb
        simp only [List.mem_cons, List.not_mem_nil, or_false] at hb
        rcases hb with rfl | rfl | rfl | rfl <;> omega

theorem hexDigitVal_hexDigitChar {m : Nat} (h : m < 16) :
    hexDigitVal (hexDigitChar m) = some m := by
  unfold hexDigitChar hexDigitVal
  by_cases h10 : m < 10
  · rw [if_pos h10]
    have ht : (Char.ofNat (48 + m)).toNat = 48 + m :=
      toNat_ofNat_of_valid (Or.inl (by omega))
    rw [ht]
    rw [if_pos (by simp only [Bool.and_eq_true, decide_eq_true_eq]; omega)]
    congr 1
    omega
  · rw [if_neg h10]
    have ht : (Char.ofNat (55 + m)).toNat = 55 + m :=
      toNat_ofNat_of_valid (Or.inl (by omega))
    rw [ht]
    rw [if_neg (by simp only [Bool.and_eq_true, decide_eq_true_eq]; omega),
      if_pos (by simp only [Bool.and_eq_true, decide_eq_true_eq]; omega)]
    congr 1
    omega

theorem pctToBytes_triple {b : Nat} (h : b < 256) (cs : List Char) :
    pctToBytes (pctTriple b ++ cs) = b :: pctToBytes cs := by
  show pctToBytes (Char.ofNat 37 :: hexDigitChar (b / 16)
    :: hexDigitChar (b % 16) :: cs) = b :: pctToBytes cs
  have h37 : (Char.ofNat 37).toNat = 37 := toNat_ofNat_of_valid (Or.inl (by omega))
  have e1 : hexDigitVal (hexDigitChar (b / 16)) = some (b / 16) :=
    hexDigitVal_hexDigitChar (by omega)
  have e2 : hexDigitVal (hexDigitChar (b % 16)) = some (b % 16) :=
    hexDigitVal_hexDigitChar (by omega)
  simp only [pctToBytes, h37, e1, e2, Option.isSome_some, Bool.and_self,
    if_true, Option.getD_some]
  rw [show b / 16 * 16 + b % 16 = b from by omega]

theorem pctToBytes_flat {bsl : List Nat} (h : ∀ b ∈ bsl, b < 256) (cs : List Char) :
    pctToBytes (bsl.flatMap pctTriple ++ cs) = bsl ++ pctToBytes cs := by
  induction bsl with
  | nil => simp
  | cons b bsl ih =>
    rw [List.flatMap_cons, List.append_assoc,
      pctToBytes_triple (h b (List.mem_cons_self b bsl)),
      ih (fun x hx => h x (List.mem_cons_of_mem b hx))]
    rfl

theorem uriUnreserved_ne_37 {c : Char} (h : uriUnreserved c = true) :
    c.toNat ≠ 37 := by
  unfold uriUnreserved at h
  simp only [Bool.or_eq_true, Bool.and_eq_true, decide_eq_true_eq] at h
  omega

theorem pctToBytes_encChar (c : Char) (cs : List Char) :
    pctToBytes ((if uriUnreserved c then [c]
      else (utf8Encode c).flatMap pctTriple) ++ cs) =
    utf8Encode c ++ pctToBytes cs := by
  by_cases hu : uriUnreserved c = true
  · rw [if_pos hu]
    have h37 : ¬ c.toNat = 37 := uriUnreserved_ne_37 hu
    show pctToBytes (c :: cs) = _
    conv_lhs => unfold pctToBytes
    rw [if_neg h37]
  · rw [if_neg hu]
    exact pctToBytes_flat (utf8Encode_lt_256 c) cs

theorem decodeURIComponent_encode (cs : List Char) :
    decodeURIComponent (encodeURIComponent cs) = cs := by
  unfold decodeURIComponent
  induction cs with
  | nil =>
    show utf8Decode (pctToBytes []) = []
    show utf8Decode [] = []
    rw [utf8Decode_nil]
  | cons c cs ih =>
    show utf8Decode (pctToBytes (((fun c =>
      if uriUnreserved c then [c] else (utf8Encode c).flatMap pctTriple) c)
        ++ encodeURIComponent cs)) = _
    rw [pctToBytes_encChar, utf8Decode_encode, ih]

theorem rewriteChars_nil (base : List Char) : rewriteChars base [] = [] := by
  simp [rewriteChars]

theorem rewriteChars_cons_none {c : Char} {rest : List Char} (base : List Char)
    (h : urlPrefixLen (c :: rest) = none) :
    rewriteChars base (c :: rest) = c :: rewriteChars base rest := by
  conv_lhs => unfold rewriteChars
  rw [h]

theorem rewriteChars_cons_skip {c : Char} {rest : List Char} {k : Nat}
    (base : List Char) (h : urlPrefixLen (c :: rest) = some k)
    (hn : ¬ k < (urlTok (c :: rest)).length) :
    rewriteChars base (c :: rest) = c :: rewriteChars base rest := by
  conv_lhs => unfold rewriteChars
  rw [h]
  show (if k < (urlTok (c :: rest)).length then
      base ++ encodeURIComponent (urlTok (c :: rest)) ++
        rewriteChars base (rest.drop ((urlTok (c :: rest)).length - 1))
    else c :: rewriteChars base rest) = c :: rewriteChars base rest
  rw [if_neg hn]

theorem rewriteChars_cons_match {c : Char} {rest : List Char} {k : Nat}
    (base : List Char) (h : urlPrefixLen (c :: rest) = some k)
    (hlt : k < (urlTok (c :: rest)).length) :
    rewriteChars base (c :: rest) =
      base ++ encodeURIComponent (urlTok (c :: rest)) ++
        rewriteChars base (rest.drop ((urlTok (c :: rest)).length - 1)) := by
  conv_lhs => unfold rewriteChars
  rw [h]
  show (if k < (urlTok (c :: rest)).length then
      base ++ encodeURIComponent (urlTok (c :: rest)) ++
        rewriteChars base (rest.drop ((urlTok (c :: rest)).length - 1))
    else c :: rewriteChars base rest) =
    base ++ encodeURIComponent (urlTok (c :: rest)) ++
      rewriteChars base (rest.drop ((urlTok (c :: rest)).length - 1))
  rw [if_pos hlt]

theorem isPrefixOf_append_of_ws {s pre rest : List Char} {w : Char}
    (hsl : ∀ a ∈ s, wsB a = false) (hw : w ∈ pre) (hws : wsB w = true) :
    s.isPrefixOf (pre ++ rest) = s.isPrefixOf pre := by
  rw [Bool.eq_iff_iff, List.isPrefixOf_iff_prefix, List.isPrefixOf_iff_prefix]
  constructor
  · intro h
    rcases List.prefix_or_prefix_of_prefix h (List.prefix_append pre rest) with h1 | h1
    · exact h1
    · have := hsl w (h1.subset hw)
      rw [hws] at this
      exact absurd this (by simp)
  · intro h
    exact h.trans (List.prefix_append pre rest)

theorem isPrefixOf_append_of_le {s l1 l2 : List Char} (h : s.length ≤ l1.length) :
    s.isPrefixOf (l1 ++ l2) = s.isPrefixOf l1 := by
  rw [Bool.eq_iff_iff, List.isPrefixOf_iff_prefix, List.isPrefixOf_iff_prefix]
  constructor
  · intro hp
    rcases List.prefix_or_prefix_of_prefix hp (List.prefix_append l1 l2) with h1 | h1
    · exact h1
    · have hlen := h1.length_le
      rw [h1.eq_of_length (le_antisymm hlen h)]
  · intro hp
    exact hp.trans (List.prefix_append l1 l2)

theorem urlPrefixLen_append_of_ws {pre rest : List Char} {w : Char}
    (hw : w ∈ pre) (hws : wsB w = true) :
    urlPrefixLen (pre ++ rest) = urlPrefixLen pre := by
  unfold urlPrefixLen
  rw [isPrefixOf_append_of_ws (by decide) hw hws,
    isPrefixOf_append_of_ws (by decide) hw hws]

theorem urlPrefixLen_append_of_le {tok rest : List Char} (h : 8 ≤ tok.length) :
    urlPrefixLen (tok ++ rest) = urlPrefixLen tok := by
  unfold urlPrefixLen
  rw [isPrefixOf_append_of_le (by simpa using h),
    isPrefixOf_append_of_le (by simp; omega)]

theorem urlPrefixLen_le_of_some {cs : List Char} {k : Nat}
    (h : urlPrefixLen cs = some k) : k ≤ cs.length ∧ (k = 7 ∨ k = 8) := by
  unfold urlPrefixLen at h
  by_cases h1 : "https://".data.isPrefixOf cs = true
  · rw [if_pos h1] at h
    injection h with h
    have := (List.isPrefixOf_iff_prefix.mp h1).length_le
    simp at this
    omega
  · rw [if_neg h1] at h
    by_cases h2 : "http://".data.isPrefixOf cs = true
    · rw [if_pos h2] at h
      injection h with h
      have := (List.isPrefixOf_iff_prefix.mp h2).length_le
      simp at this
      omega
    · rw [if_neg h2] at h
      exact absurd h (by simp)

theorem urlPrefixLen_head_not_ws {c : Char} {cs : List Char} {k : Nat}
    (h : urlPrefixLen (c :: cs) = some k) : wsB c = false := by
  unfold urlPrefixLen at h
  by_cases h1 : "https://".data.isPrefixOf (c :: cs) = true
  · obtain ⟨t, ht⟩ := List.isPrefixOf_iff_prefix.mp h1
    have hc := congrArg List.head? ht
    simp at hc
    rw [← hc]
    decide
  · rw [if_neg h1] at h
    by_cases h2 : "http://".data.isPrefixOf (c :: cs) = true
    · obtain ⟨t, ht⟩ := List.isPrefixOf_iff_prefix.mp h2
      have hc := congrArg List.head? ht
      simp at hc
      rw [← hc]
      decide
    · rw [if_neg h2] at h
      exact absurd h (by simp)

theorem takeWhile_append_stop {p : Char → Bool} {xs : List Char} (ys : List Char)
    {w : Char} (hw : w ∈ xs) (hpw : p w = false) :
    (xs ++ ys).takeWhile p = xs.takeWhile p := by
  induction xs with
  | nil => simp at hw
  | cons x xs ih =>
    by_cases hx : p x = true
    · have hw2 : w ∈ xs := by
        rcases List.mem_cons.mp hw with rfl | h
        · rw [hx] at hpw
          exact absurd hpw (by simp)
        · exact h
      rw [List.cons_append, List.takeWhile_cons_of_pos hx,
        List.takeWhile_cons_of_pos hx, ih hw2]
    · rw [List.cons_append, List.takeWhile_cons_of_neg hx,
        List.takeWhile_cons_of_neg hx]

theorem takeWhile_append_all {p : Char → Bool} {xs : List Char} (ys : List Char)
    (h : ∀ x ∈ xs, p x = true) :
    (xs ++ ys).takeWhile p = xs ++ ys.takeWhile p := by
  induction xs with
  | nil => simp
  | cons x xs ih =>
    rw [List.cons_append, List.takeWhile_cons_of_pos (h x (List.mem_cons_self x xs)),
      ih (fun a ha => h a (List.mem_cons_of_mem x ha)), List.cons_append]

theorem takeWhile_length_lt {p : Char → Bool} {xs : List Char} {w : Char}
    (hw : w ∈ xs) (hpw : p w = false) :
    (xs.takeWhile p).length < xs.length := by
  induction xs with
  | nil => simp at hw
  | cons x xs ih =>
    by_cases hx : p x = true
    · have hw2 : w ∈ xs := by
        rcases List.mem_cons.mp hw with rfl | h
        · rw [hx] at hpw
          exact absurd hpw (by simp)
        · exact h
      rw [List.takeWhile_cons_of_pos hx]
      simpa using ih hw2
    · rw [List.takeWhile_cons_of_neg hx]
      simp

/-- Processing a whitespace-terminated prefix of the manifest is independent
of what follows it: no URL match can cross the trailing whitespace. -/
theorem rewriteChars_append_split (base : List Char) :
    ∀ (n : Nat) (pre rest : List Char), pre.length ≤ n →
      (∃ w, pre.getLast? = some w ∧ wsB w = true) →
      rewriteChars base (pre ++ rest) =
        rewriteChars base pre ++ rewriteChars base rest := by
  intro n
  induction n with
  | zero =>
    intro pre rest hlen hws
    obtain ⟨w, hwlast, _⟩ := hws
    cases pre with
    | nil => simp at hwlast
    | cons c pt => simp at hlen
  | succ n ih =>
    intro pre rest hlen hws
    obtain ⟨w, hwlast, hwws⟩ := hws
    cases pre with
    | nil => simp at hwlast
    | cons c pt =>
      have hwmem : w ∈ c :: pt := List.mem_of_mem_getLast? hwlast
      have hpw : (fun d => !wsB d) w = false := by simp [hwws]
      have hpeq : urlPrefixLen (c :: (pt ++ rest)) = urlPrefixLen (c :: pt) := by
        rw [← List.cons_append]
        exact urlPrefixLen_append_of_ws hwmem hwws
      have htokeq : urlTok (c :: (pt ++ rest)) = urlTok (c :: pt) := by
        unfold urlTok
        rw [← List.cons_append]
        exact takeWhile_append_stop rest hwmem hpw
      have hlen2 : pt.length ≤ n := by
        simp only [List.length_cons] at hlen
        omega
      cases hk : urlPrefixLen (c :: pt) with
      | none =>
        rw [hk] at hpeq
        rw [List.cons_append, rewriteChars_cons_none base hpeq,
          rewriteChars_cons_none base hk]
        cases pt with
        | nil =>
          rw [rewriteChars_nil]
          simp
        | cons p0 pts =>
          rw [List.getLast?_cons_cons] at hwlast
          rw [ih (p0 :: pts) rest hlen2 ⟨w, hwlast, hwws⟩]
          simp
      | some k =>
        rw [hk] at hpeq
        have hcns : wsB c = false := urlPrefixLen_head_not_ws hk
        have hwne : w ≠ c := by
          intro h0
          rw [h0, hcns] at hwws
          exact absurd hwws (by simp)
        have hwpt : w ∈ pt := by
          rcases List.mem_cons.mp hwmem with h0 | h0
          · exact absurd h0 hwne
          · exact h0
        have hptne : pt ≠ [] := by
          intro h0
          rw [h0] at hwpt
          exact absurd hwpt (List.not_mem_nil w)
        have hptlast : pt.getLast? = some w := by
          cases pt with
          | nil => exact absurd rfl hptne
          | cons p0 pts =>
            rw [List.getLast?_cons_cons] at hwlast
            exact hwlast
        by_cases hlt : k < (urlTok (c :: pt)).length
        · have hmlt : (urlTok (c :: pt)).length < pt.length + 1 := by
            have := takeWhile_length_lt (p := fun d => !wsB d) hwmem hpw
            simpa using this
          have hk78 := urlPrefixLen_le_of_some hk
          have hm8 : 8 ≤ (urlTok (c :: pt)).length := by omega
          have hdle : (urlTok (c :: pt)).length - 1 ≤ pt.length := by omega
          have hdlt : (urlTok (c :: pt)).length - 1 < pt.length := by omega
          rw [List.cons_append,
            rewriteChars_cons_match base hpeq (htokeq ▸ hlt),
            rewriteChars_cons_match base hk hlt, htokeq,
            List.drop_append_of_le_length hdle]
          have hlast2 : (pt.drop ((urlTok (c :: pt)).length - 1)).getLast?
              = some w := by
            rw [List.getLast?_drop, if_neg (by omega)]
            exact hptlast
          rw [ih (pt.drop ((urlTok (c :: pt)).length - 1)) rest
            (by simp only [List.length_drop]; omega) ⟨w, hlast2, hwws⟩]
          simp [List.append_assoc]
        · rw [List.cons_append,
            rewriteChars_cons_skip base hpeq (htokeq ▸ hlt),
            rewriteChars_cons_skip base hk hlt]
          cases pt with
          | nil => exact absurd rfl hptne
          | cons p0 pts =>
            rw [ih (p0 :: pts) rest hlen2 ⟨w, hptlast, hwws⟩]
            simp

/-- Decidable form of "this is a URL token of the rewrite regex": a scheme
prefix, at least one further character, and no whitespace. -/
def isUrlTokenB (tok : List Char) : Bool :=
  match urlPrefixLen tok with
  | some k => decide (k < tok.length) && tok.all (fun c => !wsB c)
  | none => false

/-- Whitespace (or nothing) on the left boundary of a token. -/
def endsWsOrEmptyB (cs : List Char) : Bool :=
  match cs.getLast? with
  | some w => wsB w
  | none => true

/-- Whitespace (or nothing) on the right boundary of a token. -/
def startsWsOrEmptyB (cs : List Char) : Bool :=
  match cs.head? with
  | some w => wsB w
  | none => true

/-- A URL token at the head of the input, delimited on the right, is
consumed as one match and replaced by the proxied form. -/
theorem rewriteChars_token (base tok post : List Char)
    (htok : isUrlTokenB tok = true)
    (hpost : post = [] ∨ ∃ w t, post = w :: t ∧ wsB w = true) :
    rewriteChars base (tok ++ post) =
      base ++ encodeURIComponent tok ++ rewriteChars base post := by
  unfold isUrlTokenB at htok
  cases hk : urlPrefixLen tok with
  | none =>
    rw [hk] at htok
    exact absurd htok (by simp)
  | some k =>
    rw [hk] at htok
    simp only [Bool.and_eq_true, decide_eq_true_eq, List.all_eq_true] at htok
    obtain ⟨hklt, hall⟩ := htok
    have hk78 := urlPrefixLen_le_of_some hk
    have h8 : 8 ≤ tok.length := by omega
    have hpeq : urlPrefixLen (tok ++ post) = some k := by
      rw [urlPrefixLen_append_of_le h8, hk]
    have htke : urlTok (tok ++ post) = tok := by
      unfold urlTok
      rw [takeWhile_append_all post hall]
      rcases hpost with rfl | ⟨w, t, rfl, hw⟩
      · simp
      · rw [List.takeWhile_cons_of_neg (by simp [hw])]
        simp
    cases tok with
    | nil => simp at h8
    | cons c t =>
      have hpeq2 : urlPrefixLen (c :: (t ++ post)) = some k := hpeq
      have htke2 : urlTok (c :: (t ++ post)) = c :: t := htke
      have hlt2 : k < (urlTok (c :: (t ++ post))).length := by
        rw [htke2]
        exact hklt
      have hstep := rewriteChars_cons_match base hpeq2 hlt2
      rw [htke2] at hstep
      show rewriteChars base (c :: (t ++ post)) = _
      rw [hstep]
      have hdrop : (t ++ post).drop ((c :: t).length - 1) = post := by
        simp only [List.length_cons, Nat.add_sub_cancel]
        exact List.drop_left t post
      rw [hdrop]

/-- C5: every whitespace-delimited URL token of the manifest body is
replaced by the proxy base followed by its percent-encoding, the processing
of the surrounding text is unaffected, percent-decoding inverts
percent-encoding (`decode(encode(x)) = x` for every string), and a body
consisting of `https://host/seg1.ts` is rewritten to the proxy base plus
`https%3A%2F%2Fhost%2Fseg1.ts`. -/
theorem c5_manifest_rewrite :
    (∀ (base pre tok post : List Char),
      endsWsOrEmptyB pre = true → startsWsOrEmptyB post = true →
      isUrlTokenB tok = true →
      rewriteChars base (pre ++ tok ++ post) =
        rewriteChars base pre ++ base ++ encodeURIComponent tok ++
          rewriteChars base post) ∧
    (∀ x : List Char, decodeURIComponent (encodeURIComponent x) = x) ∧
    rewritePlaylist proxyBase "https://host/seg1.ts" =
      proxyBase ++ "https%3A%2F%2Fhost%2Fseg1.ts" := by
  refine ⟨?_, decodeURIComponent_encode, ?_⟩
  · intro base pre tok post hpre hpost htok
    have hpost2 : post = [] ∨ ∃ w t, post = w :: t ∧ wsB w = true := by
      unfold startsWsOrEmptyB at hpost
      cases post with
      | nil => exact Or.inl rfl
      | cons w t => exact Or.inr ⟨w, t, rfl, by simpa using hpost⟩
    cases pre with
    | nil =>
      simp only [List.nil_append]
      rw [rewriteChars_token base tok post htok hpost2, rewriteChars_nil]
      simp
    | cons c pt =>
      have hw : ∃ w, (c :: pt).getLast? = some w ∧ wsB w = true := by
        unfold endsWsOrEmptyB at hpre
        cases hl : (c :: pt).getLast? with
        | none =>
          rw [List.getLast?_eq_none_iff] at hl
          exact absurd hl (by simp)
        | some w =>
          rw [hl] at hpre
          exact ⟨w, rfl, hpre⟩
      rw [List.append_assoc,
        rewriteChars_append_split base (c :: pt).length (c :: pt) (tok ++ post)
          le_rfl hw,
        rewriteChars_token base tok post htok hpost2]
      simp [List.append_assoc]
  · unfold rewritePlaylist
    have h := rewriteChars_token proxyBase.data "https://host/seg1.ts".data []
      (by decide) (Or.inl rfl)
    rw [List.append_nil] at h
    rw [h, rewriteChars_nil, List.append_nil]
    have henc : encodeURIComponent "https://host/seg1.ts".data =
        "https%3A%2F%2Fhost%2Fseg1.ts".data := by decide
    rw [henc]
    rfl

/-- C5 witness: the rewrite statement applied to a concrete manifest of the
form header-newline-URL-newline-footer. -/
theorem c5_witness :
    endsWsOrEmptyB "#EXTM3U\n".data = true ∧
    startsWsOrEmptyB "\n#EXT-X-ENDLIST".data = true ∧
    isUrlTokenB "https://host/seg1.ts".data = true ∧
    rewriteChars proxyBase.data
        ("#EXTM3U\n".data ++ "https://host/seg1.ts".data ++
          "\n#EXT-X-ENDLIST".data) =
      rewriteChars proxyBase.data "#EXTM3U\n".data ++ proxyBase.data ++
        encodeURIComponent "https://host/seg1.ts".data ++
        rewriteChars proxyBase.data "\n#EXT-X-ENDLIST".data :=
  ⟨by decide, by decide, by decide,
    c5_manifest_rewrite.1 proxyBase.data "#EXTM3U\n".data
      "https://host/seg1.ts".data "\n#EXT-X-ENDLIST".data
      (by decide) (by decide) (by decide)⟩

end Ragam
